import Mathlib

/-!
Verification of the nested-JSON field extraction and flattening engine of
`fedex.py` (functions `extract_field_value`, `parse_dimensions`,
`extract_required_fields`, `search_fields_recursive`,
`format_fields_recursive`).

The Python value universe (the shapes produced by JSON deserialization) is
modelled as a mutual inductive family `PyVal` / `PyList` / `PyDict`.
Numbers are modelled by their `str()` form together with their constructor
(`vint` / `vfloat`): the engine never computes with numbers, it only
stringifies them (`str(value)`, f-strings), truth-tests them and inspects
their runtime type name, and all of those are determined by the constructor
and the display string.

String primitives of Python that the engine uses (`split`, `strip`,
`lower`, `upper`, `in`, `find`, slicing, `int()`) are modelled by
character-list functions defined below; case mapping is ASCII (the engine
only ever compares ASCII markers such as "pd:").
-/

mutual

inductive PyVal : Type where
  | vnone : PyVal
  | vbool : Bool → PyVal
  | vint : String → PyVal
  | vfloat : String → PyVal
  | vstr : String → PyVal
  | vlist : PyList → PyVal
  | vdict : PyDict → PyVal

inductive PyList : Type where
  | nil : PyList
  | cons : PyVal → PyList → PyList

inductive PyDict : Type where
  | nil : PyDict
  | cons : String → PyVal → PyDict → PyDict

end

/-- Number of elements of a Python list (`len`). -/
def PyList.length : PyList → Nat
  | .nil => 0
  | .cons _ t => 1 + t.length

/-- Zero-based element access; callers only use it under a bounds check
(the dangling `.vnone` default is unreachable there). -/
def PyList.getIdx : PyList → Nat → PyVal
  | .nil, _ => .vnone
  | .cons h _, 0 => h
  | .cons _ t, n + 1 => t.getIdx n

/-- First-match association lookup: the model of `key in d` / `d[key]` on a
Python dict. -/
def PyDict.lookup : PyDict → String → Option PyVal
  | .nil, _ => none
  | .cons k v t, key => if k = key then some v else t.lookup key

/-- `d.get(key, default)`. -/
def PyDict.get (d : PyDict) (key : String) (dflt : PyVal) : PyVal :=
  match d.lookup key with
  | some v => v
  | none => dflt

/-- Python truthiness (`bool(v)`).  For numbers it is determined by the
`str()` form: `str` of an int is "0" exactly for 0, and `str` of a float
equal to zero is "0.0" or "-0.0". -/
def pyTruthy : PyVal → Bool
  | .vnone => false
  | .vbool b => b
  | .vint s => !(s == "0")
  | .vfloat s => !((s == "0.0") || (s == "-0.0"))
  | .vstr s => !(s == "")
  | .vlist .nil => false
  | .vlist (.cons _ _) => true
  | .vdict .nil => false
  | .vdict (.cons _ _ _) => true

/-- `x or y` on Python values. -/
def pyOr (a b : PyVal) : PyVal := if pyTruthy a then a else b

/-- `type(v).__name__`. -/
def typeName : PyVal → String
  | .vnone => "NoneType"
  | .vbool _ => "bool"
  | .vint _ => "int"
  | .vfloat _ => "float"
  | .vstr _ => "str"
  | .vlist _ => "list"
  | .vdict _ => "dict"

def isContainer : PyVal → Bool
  | .vlist _ => true
  | .vdict _ => true
  | _ => false

def isStrVal : PyVal → Bool
  | .vstr _ => true
  | _ => false

mutual

/-- `repr(v)`: Python `repr`, with strings quoted (Python additionally
escapes special characters inside the quotes; the engine only stringifies
containers that are empty, so that is invisible to every use below). -/
def pyRepr : PyVal → String
  | .vnone => "None"
  | .vbool true => "True"
  | .vbool false => "False"
  | .vint s => s
  | .vfloat s => s
  | .vstr s => "'" ++ s ++ "'"
  | .vlist l => "[" ++ pyReprList l ++ "]"
  | .vdict d => "\x7b" ++ pyReprDict d ++ "\x7d"
termination_by structural v => v

def pyReprList : PyList → String
  | .nil => ""
  | .cons h .nil => pyRepr h
  | .cons h t => pyRepr h ++ ", " ++ pyReprList t
termination_by structural l => l

def pyReprDict : PyDict → String
  | .nil => ""
  | .cons k v .nil => "'" ++ k ++ "': " ++ pyRepr v
  | .cons k v t => "'" ++ k ++ "': " ++ pyRepr v ++ ", " ++ pyReprDict t
termination_by structural d => d

end

/-- `str(v)`.  For containers Python falls back to `repr`, which quotes
strings; the engine only ever stringifies containers that are empty, so the
simplified string quoting (no escaping of special characters) is invisible
to every use below. -/
def pyStr : PyVal → String
  | .vnone => "None"
  | .vbool true => "True"
  | .vbool false => "False"
  | .vint s => s
  | .vfloat s => s
  | .vstr s => s
  | .vlist l => "[" ++ pyReprList l ++ "]"
  | .vdict d => "\x7b" ++ pyReprDict d ++ "\x7d"

/-! ### Character-list models of the Python string primitives -/

/-- Python `str.split(sep)` for a one-character separator: splits at every
occurrence and keeps empty pieces; `"".split(c) == [""]`. -/
def splitOnChar (c : Char) : List Char → List (List Char)
  | [] => [[]]
  | a :: t =>
    if a = c then [] :: splitOnChar c t
    else
      match splitOnChar c t with
      | h :: r => (a :: h) :: r
      | [] => [[a]]

/-- Index of the first occurrence of a character (`str.index` under an
`in` guard). -/
def idxOf (c : Char) : List Char → Option Nat
  | [] => none
  | a :: t => if a = c then some 0 else (idxOf c t).map (· + 1)

/-- `c in s` for a single character. -/
def containsC (c : Char) (l : List Char) : Bool := (idxOf c l).isSome

/-- Index of the first occurrence of a substring (`str.find`). -/
def findSubIdx (pat : List Char) : List Char → Option Nat
  | [] => if pat.isPrefixOf ([] : List Char) then some 0 else none
  | l@(_ :: t) => if pat.isPrefixOf l then some 0 else (findSubIdx pat t).map (· + 1)

/-- `sub in s` for strings. -/
def containsSubL (pat l : List Char) : Bool := (findSubIdx pat l).isSome

def isWSChar (c : Char) : Bool := c = ' ' || c = '\t' || c = '\n' || c = '\r'

/-- Python `str.strip()` (whitespace from both ends). -/
def trimChars (l : List Char) : List Char :=
  ((l.dropWhile isWSChar).reverse.dropWhile isWSChar).reverse

def strTrim (s : String) : String := ⟨trimChars s.data⟩

def lowerData (s : String) : List Char := s.data.map Char.toLower

def strUpper (s : String) : String := ⟨s.data.map Char.toUpper⟩

/-- Decimal digit string of a natural number (`str(n)`), fuel-based so that
it reduces definitionally. -/
def natCharsAux : Nat → Nat → List Char
  | 0, _ => []
  | _ + 1, 0 => []
  | fuel + 1, n + 1 =>
    natCharsAux fuel ((n + 1) / 10) ++ [Char.ofNat (48 + (n + 1) % 10)]

def natChars (n : Nat) : List Char :=
  if n = 0 then ['0'] else natCharsAux (n + 1) n

def natStr (n : Nat) : String := ⟨natChars n⟩

/-- Value of a nonempty all-digit character list, `none` otherwise. -/
def digitsValGo : List Char → Nat → Option Nat
  | [], acc => some acc
  | c :: t, acc => if c.isDigit then digitsValGo t (acc * 10 + (c.toNat - 48)) else none

def digitsVal (l : List Char) : Option Nat :=
  match l with
  | [] => none
  | _ => digitsValGo l 0

/-- Python `int(s)` on the engine's inputs: optional surrounding
whitespace, an optional single sign, then decimal digits; anything else
raises `ValueError` (modelled as `.error`).  (Python additionally accepts
underscore digit grouping and non-ASCII digits; no claim depends on those.) -/
def pyInt (l : List Char) : Except Unit Int :=
  match trimChars l with
  | [] => .error ()
  | c :: r =>
    if c = '-' then
      match digitsVal r with
      | some n => .ok (-(n : Int))
      | none => .error ()
    else if c = '+' then
      match digitsVal r with
      | some n => .ok (n : Int)
      | none => .error ()
    else
      match digitsVal (c :: r) with
      | some n => .ok (n : Int)
      | none => .error ()

/-! ### `extract_field_value` (fedex.py lines 45-73)

The body of the `try` block, with the one raise-capable operation
(`int(...)` on the text between the brackets) threaded through `Except`;
the wrapper `extract_field_value` is the `try`/`except` that converts any
such error into `None`.  Python's `None` is simultaneously JSON `null` and
the absence default, so the functions return `PyVal` with `.vnone` playing
both roles, exactly as in the source. -/

def extract_parts_try (cur : PyVal) : List (List Char) → Except Unit PyVal
  | [] => .ok cur
  | part :: rest =>
    if containsC '[' part && containsC ']' part then
      -- key = part[:part.index('[')]; index = int(part[part.index('[')+1:part.index(']')])
      let i1 := (idxOf '[' part).getD 0
      let i2 := (idxOf ']' part).getD 0
      let key : String := ⟨part.take i1⟩
      match pyInt ((part.drop (i1 + 1)).take (i2 - (i1 + 1))) with
      | .error e => .error e
      | .ok index =>
        match cur with
        | .vdict d =>
          match d.lookup key with
          | some c1 =>
            match c1 with
            | .vlist l =>
              if 0 ≤ index && index < (PyList.length l : Int) then
                extract_parts_try (l.getIdx index.toNat) rest
              else
                .ok .vnone
            | _ => .ok .vnone
          | none => .ok .vnone
        | _ => .ok .vnone
    else
      match cur with
      | .vdict d =>
        match d.lookup (⟨part⟩ : String) with
        | some c1 => extract_parts_try c1 rest
        | none => .ok .vnone
      | _ => .ok .vnone

def extract_try (data : PyVal) (field_path : String) : Except Unit PyVal :=
  extract_parts_try data (splitOnChar '.' field_path.data)

def extract_field_value (data : PyVal) (field_path : String) : PyVal :=
  match extract_try data field_path with
  | .ok v => v
  | .error _ => .vnone

/-! ### `parse_dimensions` (fedex.py lines 125-185) -/

structure DimRecord where
  length : String
  width : String
  height : String
deriving DecidableEq

def emptyDims : DimRecord := ⟨"", "", ""⟩

/-- The assignment block the source repeats verbatim in both branches:
`if len(parts) >= 3: ... elif len(parts) == 2: ...` with each used part
stripped. -/
def dimsOfParts (parts : List String) : DimRecord :=
  if 3 ≤ parts.length then
    ⟨strTrim (parts.getD 0 ""), strTrim (parts.getD 1 ""), strTrim (parts.getD 2 "")⟩
  else if parts.length = 2 then
    ⟨strTrim (parts.getD 0 ""), strTrim (parts.getD 1 ""), ""⟩
  else emptyDims

def splitParts (c : Char) (l : List Char) : List String :=
  (splitOnChar c l).map fun p => (⟨p⟩ : String)

/-- Body of `parse_dimensions` for a nonempty string input (the source is
guarded by `if not dims_v_str or not isinstance(dims_v_str, str)`). -/
def parse_dimensions_str (s : String) : DimRecord :=
  if containsSubL "pd:".data (lowerData s) then
    match findSubIdx "pd:".data (lowerData s) with
    | some pd_index =>
      let after_pd := strTrim ⟨s.data.drop (pd_index + 3)⟩
      if containsC '×' after_pd.data then dimsOfParts (splitParts '×' after_pd.data)
      else if containsC 'x' after_pd.data then dimsOfParts (splitParts 'x' after_pd.data)
      else if containsC 'X' after_pd.data then dimsOfParts (splitParts 'X' after_pd.data)
      else emptyDims
    | none => emptyDims
  else
    if containsC '×' s.data then dimsOfParts (splitParts '×' s.data)
    else if containsC 'x' s.data then dimsOfParts (splitParts 'x' s.data)
    else if containsC 'X' s.data then dimsOfParts (splitParts 'X' s.data)
    else emptyDims

def parse_dimensions (v : PyVal) : DimRecord :=
  match v with
  | .vstr s => if s = "" then emptyDims else parse_dimensions_str s
  | _ => emptyDims

/-! ### `extract_required_fields` (fedex.py lines 187-239)

The record built by the source is a dict with a fixed key set; it is
modelled as a structure.  Field names that are path strings in the source
(`fields['dimensions.dims[3].t']` and so on) become `dims3_t`, `dims3_v`,
`dims0_v`, `dims1_v`. -/

structure Fields where
  trackingId : PyVal
  WEIGHT : PyVal
  VOLUME : PyVal
  dims3_t : PyVal
  dims3_v : PyVal
  length : String
  width : String
  height : String
  dims0_v : PyVal
  dims1_v : PyVal
  shipperNote : PyVal
  address : PyVal
  customerName : PyVal
  customerPhone : PyVal

def extract_required_fields (result : PyDict) : Fields :=
  let weight := extract_field_value (.vdict result) "dimensions.dims[0].v"
  let volume := extract_field_value (.vdict result) "dimensions.dims[1].v"
  let dims_t := extract_field_value (.vdict result) "dimensions.dims[3].t"
  let dims_v := extract_field_value (.vdict result) "dimensions.dims[3].v"
  -- if dims_v: parsed_dims = parse_dimensions(str(dims_v))
  let parsed_dims := parse_dimensions (.vstr (pyStr dims_v))
  let dims_0_v := extract_field_value (.vdict result) "dimensions.dims[0].v"
  let dims_1_v := extract_field_value (.vdict result) "dimensions.dims[1].v"
  { trackingId := pyOr (result.get "trackingId" (.vstr "")) (result.get "tracking_id" (.vstr ""))
    WEIGHT := match weight with | .vnone => .vstr "" | w => w
    VOLUME := match volume with | .vnone => .vstr "" | v => v
    dims3_t := match dims_t with | .vnone => .vstr "NONE" | t => t
    dims3_v := match dims_v with | .vnone => .vstr "" | v => v
    length := if pyTruthy dims_v then parsed_dims.length else ""
    width := if pyTruthy dims_v then parsed_dims.width else ""
    height := if pyTruthy dims_v then parsed_dims.height else ""
    dims0_v := match dims_0_v with | .vnone => .vstr "" | v => v
    dims1_v := match dims_1_v with | .vnone => .vstr "" | v => v
    shipperNote := pyOr (result.get "shipperNote" (.vstr "")) (result.get "shipper_note" (.vstr ""))
    address := result.get "address" (.vstr "")
    customerName := pyOr (result.get "customerName" (.vstr "")) (result.get "customer_name" (.vstr ""))
    customerPhone := pyOr (result.get "customerPhone" (.vstr "")) (result.get "customer_phone" (.vstr "")) }

/-- The input of the spec's §8 `build_record` example:
`{"trackingId":"T1","dimensions":{"dims":[{"v":5},{"v":2.1},{},{"t":"DIM","v":"pd:1×2×3"}]}}`. -/
def sampleInput : PyDict :=
  .cons "trackingId" (.vstr "T1")
    (.cons "dimensions"
      (.vdict (.cons "dims"
        (.vlist
          (.cons (.vdict (.cons "v" (.vint "5") .nil))
            (.cons (.vdict (.cons "v" (.vfloat "2.1") .nil))
              (.cons (.vdict .nil)
                (.cons (.vdict (.cons "t" (.vstr "DIM") (.cons "v" (.vstr "pd:1×2×3") .nil)))
                  .nil)))))
        .nil))
      .nil)

/-! ### `search_fields_recursive` (fedex.py lines 92-123)

The source collects matches into dicts with keys 路径 / 字段名 / 值 / 类型
(path / field name / value / type); those four entries become the fields
of `DMatch`.  The per-key term loop (`for term in search_terms_upper: ...
break`) is `firstTermMatch`; the dict and list iteration loops are
`search_entries` and `search_list_items`. -/

structure DMatch where
  path : String
  fieldName : String
  value : PyVal
  typeName : String

/-- `field_path = f"{prefix}.{key}" if prefix else key` (used identically
by the search and the formatter). -/
def fieldPathOf (pfx k : String) : String :=
  if pfx = "" then k else pfx ++ "." ++ k

/-- The per-key loop over the upper-cased search terms: emits one match
record for the first term contained in the upper-cased key, then breaks. -/
def firstTermMatch : List String → String → String → String → PyVal → List DMatch
  | [], _, _, _, _ => []
  | t :: ts, kU, cur, k, v =>
    if containsSubL t.data kU.data then [⟨cur, k, v, typeName v⟩]
    else firstTermMatch ts kU cur k v

mutual

def search_fields_recursive (data : PyVal) (search_terms : List String) (path : String) :
    List DMatch :=
  let terms_upper := search_terms.map strUpper
  match data with
  | .vdict d => search_entries d search_terms terms_upper path
  | .vlist l => search_list_items l search_terms path 0
  | _ => []
termination_by structural data

def search_entries : PyDict → List String → List String → String → List DMatch
  | .nil, _, _, _ => []
  | .cons k v rest, terms, terms_upper, path =>
    let current_path := fieldPathOf path k
    let key_upper := strUpper k
    firstTermMatch terms_upper key_upper current_path k v
      ++ (if isContainer v then search_fields_recursive v terms current_path else [])
      ++ search_entries rest terms terms_upper path
termination_by structural d => d

def search_list_items : PyList → List String → String → Nat → List DMatch
  | .nil, _, _, _ => []
  | .cons item rest, terms, path, idx =>
    (if isContainer item then
        search_fields_recursive item terms (path ++ "[" ++ natStr idx ++ "]")
      else [])
      ++ search_list_items rest terms path (idx + 1)
termination_by structural l => l

end

/-! ### `format_fields_recursive` (fedex.py lines 241-294)

`format_fields_recursive` is the dispatching body (depth guard, then the
dict / list / scalar branches); `format_fields_entries` is the
`for key, value in data.items()` loop, `format_fields_dict_list_items` the
inner `for idx, item in enumerate(value)` loop of the dict branch, and
`format_fields_top_items` the top-level list loop. -/

/-- The truncation block the source repeats in both scalar branches:
`if len(display_value) > 200: display_value = display_value[:200] + "..."`. -/
def truncDisplay (s : String) : String :=
  if 200 < s.length then (⟨s.data.take 200⟩ : String) ++ "..." else s

/-- `"  " * depth`. -/
def strRepeat : Nat → String → String
  | 0, _ => ""
  | n + 1, s => s ++ strRepeat n s

mutual

def format_fields_recursive (data : PyVal) (pfx : String) (depth max_depth : Nat) :
    List String :=
  let indent := strRepeat depth "  "
  if depth > max_depth then []
  else
    match data with
    | .vdict d => format_fields_entries d pfx depth max_depth
    | .vlist l => format_fields_top_items l pfx depth max_depth 0
    | _ =>
      let display_value := truncDisplay (pyStr data)
      if pfx = "" then [indent ++ display_value]
      else [indent ++ pfx ++ ": " ++ display_value]
termination_by structural data

def format_fields_entries : PyDict → String → Nat → Nat → List String
  | .nil, _, _, _ => []
  | .cons key value rest, pfx, depth, max_depth =>
    let indent := strRepeat depth "  "
    let field_path := fieldPathOf pfx key
    (match value with
      | .vdict (.cons k1 v1 d1) =>
        (indent ++ field_path ++ ":")
          :: format_fields_recursive (.vdict (.cons k1 v1 d1)) field_path (depth + 1) max_depth
      | .vlist (.cons h1 t1) =>
        (indent ++ field_path ++ ": [数组，共 " ++ natStr (PyList.length (.cons h1 t1)) ++ " 项]")
          :: format_fields_dict_list_items (.cons h1 t1) field_path depth max_depth 0
      | .vnone => [indent ++ field_path ++ ": null"]
      | v =>
        [indent ++ field_path ++ ": " ++ truncDisplay (pyStr v)])
      ++ format_fields_entries rest pfx depth max_depth
termination_by structural d => d

def format_fields_dict_list_items : PyList → String → Nat → Nat → Nat → List String
  | .nil, _, _, _, _ => []
  | .cons item rest, field_path, depth, max_depth, idx =>
    let indent := strRepeat depth "  "
    (if isContainer item then
        (indent ++ "  [" ++ field_path ++ "[" ++ natStr idx ++ "]]:")
          :: format_fields_recursive item (field_path ++ "[" ++ natStr idx ++ "]")
              (depth + 2) max_depth
      else
        -- f"{indent}  {field_path}[{idx}]: {item}" — note: no truncation here
        [indent ++ "  " ++ field_path ++ "[" ++ natStr idx ++ "]: " ++ pyStr item])
      ++ format_fields_dict_list_items rest field_path depth max_depth (idx + 1)
termination_by structural l => l

def format_fields_top_items : PyList → String → Nat → Nat → Nat → List String
  | .nil, _, _, _, _ => []
  | .cons item rest, pfx, depth, max_depth, idx =>
    let indent := strRepeat depth "  "
    (if isContainer item then
        (indent ++ pfx ++ "[" ++ natStr idx ++ "]:")
          :: format_fields_recursive item (pfx ++ "[" ++ natStr idx ++ "]")
              (depth + 1) max_depth
      else
        -- f"{indent}{prefix}[{idx}]: {item}" — no truncation here either
        [indent ++ pfx ++ "[" ++ natStr idx ++ "]: " ++ pyStr item])
      ++ format_fields_top_items rest pfx depth max_depth (idx + 1)
termination_by structural l => l

end

/-! ### Claim-side specification definitions

These follow the words of the spec/claims and are compared with the source
translations above.  `Segment` is the spec's path-expression grammar
(§3/§4.1: dot-separated segments, each a bare key or a key with one
trailing bracketed index; negative indices are out of grammar). -/

inductive Segment : Type where
  | bare : String → Segment
  | idx : String → Nat → Segment
deriving DecidableEq

def renderSeg : Segment → List Char
  | .bare n => n.data
  | .idx n i => n.data ++ '[' :: (natChars i ++ [']'])

def joinDots : List (List Char) → List Char
  | [] => []
  | [x] => x
  | x :: xs => x ++ '.' :: joinDots xs

/-- The textual path expression denoted by a segment list. -/
def renderPath (segs : List Segment) : String := ⟨joinDots (segs.map renderSeg)⟩

/-- A segment name is well formed when it contains none of the three
metacharacters of the path grammar. -/
def goodName (n : String) : Bool :=
  n.data.all fun c => !(c == '.' || c == '[' || c == ']')

def goodSeg : Segment → Bool
  | .bare n => goodName n
  | .idx n _ => goodName n

/-- The claim's semantics of a path: descend one level per segment; a bare
segment requires a mapping containing the key; an indexed segment requires
a mapping whose value at the key is a sequence and an index in
`[0, length)`; anything else is Absent (Python `None`, i.e. `.vnone`). -/
def pathDescend : PyVal → List Segment → PyVal
  | v, [] => v
  | v, .bare n :: rest =>
    match v with
    | .vdict d =>
      match d.lookup n with
      | some v1 => pathDescend v1 rest
      | none => .vnone
    | _ => .vnone
  | v, .idx n i :: rest =>
    match v with
    | .vdict d =>
      match d.lookup n with
      | some (.vlist l) =>
        if i < l.length then pathDescend (l.getIdx i) rest else .vnone
      | some _ => .vnone
      | none => .vnone
    | _ => .vnone

/-- The dimension grammar exactly as claim C2 words it: pick the relevant
substring (after a case-insensitive `pd:` marker, trimmed, if the marker is
present; the whole string otherwise), choose the separator by trying `×`,
`x`, `X` in that order, split, and fill by number of parts. -/
def parse_dimensions_claim (s : String) : DimRecord :=
  let relevant : String :=
    match findSubIdx "pd:".data (lowerData s) with
    | some i => strTrim ⟨s.data.drop (i + 3)⟩
    | none => s
  let sep : Option Char :=
    if containsC '×' relevant.data then some '×'
    else if containsC 'x' relevant.data then some 'x'
    else if containsC 'X' relevant.data then some 'X'
    else none
  match sep with
  | none => emptyDims
  | some c =>
    match splitParts c relevant.data with
    | a :: b :: c3 :: _ => ⟨strTrim a, strTrim b, strTrim c3⟩
    | [a, b] => ⟨strTrim a, strTrim b, ""⟩
    | _ => emptyDims

mutual

/-- Claim C6's description of the search, written directly: one match per
key whose upper-cased name contains at least one upper-cased term,
recursion into container values regardless of a match, parent match before
children, siblings in encounter order. -/
def search_spec (data : PyVal) (terms : List String) (path : String) : List DMatch :=
  match data with
  | .vdict d => search_spec_entries d terms path
  | .vlist l => search_spec_items l terms path 0
  | _ => []
termination_by structural data

def search_spec_entries : PyDict → List String → String → List DMatch
  | .nil, _, _ => []
  | .cons k v rest, terms, path =>
    let current_path := fieldPathOf path k
    (if (terms.map strUpper).any (fun t => containsSubL t.data (strUpper k).data) then
        [⟨current_path, k, v, typeName v⟩]
      else [])
      ++ (if isContainer v then search_spec v terms current_path else [])
      ++ search_spec_entries rest terms path
termination_by structural d => d

def search_spec_items : PyList → List String → String → Nat → List DMatch
  | .nil, _, _, _ => []
  | .cons item rest, terms, path, idx =>
    (if isContainer item then
        search_spec item terms (path ++ "[" ++ natStr idx ++ "]")
      else [])
      ++ search_spec_items rest terms path (idx + 1)
termination_by structural l => l

end

/-! ### Concrete inputs used by counterexamples and witnesses -/

/-- A 201-character scalar string. -/
def longText : String := ⟨List.replicate 201 'z'⟩

/-- A mapping in which `trackingId` is present but empty while the
snake_case alias carries a value. -/
def aliasInput : PyDict := .cons "trackingId" (.vstr "") (.cons "tracking_id" (.vstr "X") .nil)

/-- A mapping whose only entry is a sequence holding one long scalar. -/
def longElemInput : PyDict := .cons "a" (.vlist (.cons (.vstr longText) .nil)) .nil

def exceptIsOk : Except Unit PyVal → Bool
  | .ok _ => true
  | .error _ => false

/-- A genuine scalar: a value handled by the formatter's final
`else` branch other than an (empty) container and other than `None`. -/
def isScalar : PyVal → Bool
  | .vbool _ => true
  | .vint _ => true
  | .vfloat _ => true
  | .vstr _ => true
  | _ => false

/-! ## Theorems -/

theorem longText_length : longText.length = 201 := rfl

/-- C9: the record's raw passthrough fields `dimensions.dims[0].v` and
`dimensions.dims[1].v` are the same values as WEIGHT and VOLUME, with the
same empty-string default on absence. -/
theorem c9_passthrough_equals_weight_volume (d : PyDict) :
    (extract_required_fields d).dims0_v = (extract_required_fields d).WEIGHT ∧
    (extract_required_fields d).dims1_v = (extract_required_fields d).VOLUME :=
  ⟨rfl, rfl⟩

/-- C3: on the spec's sample input, `extract_required_fields` yields
WEIGHT = the number 5 (string form "5"), VOLUME = the number 2.1 (string
form "2.1"), length "1", width "2", height "3", and the diagnostic field
`dimensions.dims[3].t` = "DIM". -/
theorem c3_sample_record :
    (extract_required_fields sampleInput).WEIGHT = .vint "5" ∧
    pyStr (extract_required_fields sampleInput).WEIGHT = "5" ∧
    (extract_required_fields sampleInput).VOLUME = .vfloat "2.1" ∧
    pyStr (extract_required_fields sampleInput).VOLUME = "2.1" ∧
    (extract_required_fields sampleInput).length = "1" ∧
    (extract_required_fields sampleInput).width = "2" ∧
    (extract_required_fields sampleInput).height = "3" ∧
    (extract_required_fields sampleInput).dims3_t = .vstr "DIM" :=
  ⟨rfl, rfl, rfl, rfl, rfl, rfl, rfl, rfl⟩

/-- C10: a mapping entry whose value is an empty mapping or an empty
sequence is emitted as a single scalar-style line holding the string form
of the empty container, with no recursion and no child lines. -/
theorem c10_empty_container_single_line (k : String) (rest : PyDict) (pfx : String)
    (depth max_depth : Nat) :
    format_fields_entries (.cons k (.vdict .nil) rest) pfx depth max_depth
      = (strRepeat depth "  " ++ fieldPathOf pfx k ++ ": " ++ "\x7b\x7d")
          :: format_fields_entries rest pfx depth max_depth ∧
    format_fields_entries (.cons k (.vlist .nil) rest) pfx depth max_depth
      = (strRepeat depth "  " ++ fieldPathOf pfx k ++ ": " ++ "[]")
          :: format_fields_entries rest pfx depth max_depth := by
  constructor
  · simp only [format_fields_entries]
    rfl
  · simp only [format_fields_entries]
    rfl

/-- C5 counterexample: a 201-character string that occurs as an element of
a sequence is emitted by the formatter in full, not truncated — the output
line carries all 201 characters (209 with its label), while the claim
demands at most 200 plus an ellipsis. -/
theorem c5_counterexample :
    format_fields_recursive (.vdict longElemInput) "" 0 10
      = ["a: [数组，共 1 项]", "  a[0]: " ++ longText] ∧
    longText.length = 201 ∧
    ("  a[0]: " ++ longText).length = 209 :=
  ⟨rfl, rfl, rfl⟩

/-- C5 (amended): a scalar value of a mapping entry is emitted through the
truncating scalar branch: its line shows the string form truncated to the
first 200 characters plus an ellipsis whenever it is longer than 200
characters (so the shown value is never longer than 203 characters).
Scalar elements of sequences are excluded: they are emitted in full. -/
theorem c5_scalar_truncation_amended (k : String) (v : PyVal) (rest : PyDict) (pfx : String)
    (depth max_depth : Nat) (hv : isScalar v = true) :
    format_fields_entries (.cons k v rest) pfx depth max_depth
      = (strRepeat depth "  " ++ fieldPathOf pfx k ++ ": " ++ truncDisplay (pyStr v))
          :: format_fields_entries rest pfx depth max_depth ∧
    (200 < (pyStr v).length →
      truncDisplay (pyStr v) = (⟨(pyStr v).data.take 200⟩ : String) ++ "..." ∧
      (truncDisplay (pyStr v)).length = 203) := by
  constructor
  · cases v <;> simp [isScalar] at hv <;> simp only [format_fields_entries] <;> rfl
  · intro h
    have ht : truncDisplay (pyStr v) = (⟨(pyStr v).data.take 200⟩ : String) ++ "..." := by
      rw [truncDisplay, if_pos h]
    refine ⟨ht, ?_⟩
    rw [ht]
    show ((pyStr v).data.take 200 ++ "...".data).length = 203
    rw [List.length_append, List.length_take]
    have h1 : 200 ≤ (pyStr v).data.length := le_of_lt h
    rw [Nat.min_eq_left h1]
    rfl

theorem c5_scalar_truncation_amended_witness :
    format_fields_entries (.cons "a" (.vstr longText) .nil) "" 0 10
      = ["a: " ++ truncDisplay (pyStr (.vstr longText))] ∧
    truncDisplay (pyStr (.vstr longText))
      = (⟨(pyStr (.vstr longText)).data.take 200⟩ : String) ++ "..." ∧
    (truncDisplay (pyStr (.vstr longText))).length = 203 := by
  have h := c5_scalar_truncation_amended "a" (.vstr longText) .nil "" 0 10 rfl
  have h2 := h.2 (by rw [show pyStr (.vstr longText) = longText from rfl, longText_length]; omega)
  exact ⟨by simpa using h.1, h2.1, h2.2⟩

/-- C4 counterexample: with `trackingId` present but holding the empty
string and `tracking_id` holding "X", the record's trackingId field is "X",
not the value of the present `trackingId` key. -/
theorem c4_counterexample :
    aliasInput.lookup "trackingId" = some (.vstr "") ∧
    (extract_required_fields aliasInput).trackingId = .vstr "X" ∧
    PyVal.vstr "X" ≠ PyVal.vstr "" :=
  ⟨rfl, rfl, by intro h; injection h with h1; exact absurd h1 (by decide)⟩

/-- C4 (amended): each aliased field takes the primary camelCase key's
value when that value is present and truthy; it falls back to the
snake_case alias (or the empty string) when the primary key is absent *or
its value is falsy* (Python `or`); `address` has no fallback at all. -/
theorem c4_alias_fallback_amended (d : PyDict) :
    (extract_required_fields d).trackingId
        = (if pyTruthy ((d.lookup "trackingId").getD (.vstr ""))
            then (d.lookup "trackingId").getD (.vstr "")
            else (d.lookup "tracking_id").getD (.vstr "")) ∧
    (extract_required_fields d).shipperNote
        = (if pyTruthy ((d.lookup "shipperNote").getD (.vstr ""))
            then (d.lookup "shipperNote").getD (.vstr "")
            else (d.lookup "shipper_note").getD (.vstr "")) ∧
    (extract_required_fields d).customerName
        = (if pyTruthy ((d.lookup "customerName").getD (.vstr ""))
            then (d.lookup "customerName").getD (.vstr "")
            else (d.lookup "customer_name").getD (.vstr "")) ∧
    (extract_required_fields d).customerPhone
        = (if pyTruthy ((d.lookup "customerPhone").getD (.vstr ""))
            then (d.lookup "customerPhone").getD (.vstr "")
            else (d.lookup "customer_phone").getD (.vstr "")) ∧
    (extract_required_fields d).address = (d.lookup "address").getD (.vstr "") := by
  have hget : ∀ (k : String) (dflt : PyVal), d.get k dflt = (d.lookup k).getD dflt := by
    intro k dflt
    unfold PyDict.get Option.getD
    cases d.lookup k <;> rfl
  refine ⟨?_, ?_, ?_, ?_, ?_⟩ <;>
    simp only [extract_required_fields, pyOr, hget]

/-- C8: no malformed input makes the engine raise.  The only raise-capable
operation of the path extractor, the `int(...)` conversion, is wrapped in
the `try`/`except` that converts any error into the absence default
(`None`); the dimension parser returns the all-empty record for every
non-string input and for the empty string (its own guard and catch-all
handler), and the remaining engine functions are total. -/
theorem c8_engine_never_raises (data : PyVal) (p : String) (v : PyVal) :
    (exceptIsOk (extract_try data p) = false → extract_field_value data p = .vnone) ∧
    (isStrVal v = false → parse_dimensions v = emptyDims) ∧
    parse_dimensions (.vstr "") = emptyDims := by
  refine ⟨?_, ?_, rfl⟩
  · intro h
    unfold extract_field_value
    cases hE : extract_try data p with
    | ok w => rw [hE] at h; exact absurd h (by simp [exceptIsOk])
    | error e => rfl
  · intro h
    cases v <;> first
      | rfl
      | exact absurd h (by simp [isStrVal])

theorem c8_engine_never_raises_witness :
    extract_field_value .vnone "a[b]" = .vnone ∧ parse_dimensions .vnone = emptyDims :=
  ⟨(c8_engine_never_raises .vnone "a[b]" .vnone).1 rfl,
   (c8_engine_never_raises .vnone "a[b]" .vnone).2.1 rfl⟩

/-- C7: when the input mapping has no `dimensions` key, the record has
empty WEIGHT, VOLUME, length, width and height, the sentinel "NONE" in
`dimensions.dims[3].t`, and the empty string in `dimensions.dims[3].v`. -/
theorem c7_missing_dimensions_defaults (d : PyDict) (h : d.lookup "dimensions" = none) :
    (extract_required_fields d).WEIGHT = .vstr "" ∧
    (extract_required_fields d).VOLUME = .vstr "" ∧
    (extract_required_fields d).length = "" ∧
    (extract_required_fields d).width = "" ∧
    (extract_required_fields d).height = "" ∧
    (extract_required_fields d).dims3_t = .vstr "NONE" ∧
    (extract_required_fields d).dims3_v = .vstr "" := by
  have key : ∀ rest, extract_parts_try (.vdict d) ("dimensions".data :: rest) = .ok .vnone := by
    intro rest
    have e1 : extract_parts_try (.vdict d) ("dimensions".data :: rest)
        = (match d.lookup "dimensions" with
            | some c1 => extract_parts_try c1 rest
            | none => .ok .vnone) := rfl
    rw [e1, h]
  have e0 : extract_field_value (.vdict d) "dimensions.dims[0].v" = .vnone := by
    show (match extract_parts_try (.vdict d) (splitOnChar '.' "dimensions.dims[0].v".data) with
          | .ok v => v | .error _ => .vnone) = .vnone
    rw [show splitOnChar '.' "dimensions.dims[0].v".data
        = ["dimensions".data, "dims[0]".data, "v".data] from rfl, key]
  have e1 : extract_field_value (.vdict d) "dimensions.dims[1].v" = .vnone := by
    show (match extract_parts_try (.vdict d) (splitOnChar '.' "dimensions.dims[1].v".data) with
          | .ok v => v | .error _ => .vnone) = .vnone
    rw [show splitOnChar '.' "dimensions.dims[1].v".data
        = ["dimensions".data, "dims[1]".data, "v".data] from rfl, key]
  have e3t : extract_field_value (.vdict d) "dimensions.dims[3].t" = .vnone := by
    show (match extract_parts_try (.vdict d) (splitOnChar '.' "dimensions.dims[3].t".data) with
          | .ok v => v | .error _ => .vnone) = .vnone
    rw [show splitOnChar '.' "dimensions.dims[3].t".data
        = ["dimensions".data, "dims[3]".data, "t".data] from rfl, key]
  have e3v : extract_field_value (.vdict d) "dimensions.dims[3].v" = .vnone := by
    show (match extract_parts_try (.vdict d) (splitOnChar '.' "dimensions.dims[3].v".data) with
          | .ok v => v | .error _ => .vnone) = .vnone
    rw [show splitOnChar '.' "dimensions.dims[3].v".data
        = ["dimensions".data, "dims[3]".data, "v".data] from rfl, key]
  refine ⟨?_, ?_, ?_, ?_, ?_, ?_, ?_⟩ <;>
    simp only [extract_required_fields, e0, e1, e3t, e3v, pyTruthy, if_neg, Bool.false_eq_true,
      not_false_eq_true, if_false]

theorem c7_missing_dimensions_defaults_witness :
    (extract_required_fields .nil).WEIGHT = .vstr "" ∧
    (extract_required_fields .nil).VOLUME = .vstr "" ∧
    (extract_required_fields .nil).length = "" ∧
    (extract_required_fields .nil).width = "" ∧
    (extract_required_fields .nil).height = "" ∧
    (extract_required_fields .nil).dims3_t = .vstr "NONE" ∧
    (extract_required_fields .nil).dims3_v = .vstr "" :=
  c7_missing_dimensions_defaults .nil rfl

theorem dimsOfParts_cases (parts : List String) :
    dimsOfParts parts
      = match parts with
        | a :: b :: c :: _ => ⟨strTrim a, strTrim b, strTrim c⟩
        | [a, b] => ⟨strTrim a, strTrim b, ""⟩
        | _ => emptyDims := by
  match parts with
  | [] => rfl
  | [a] => rfl
  | [a, b] => rfl
  | a :: b :: c :: t =>
    show dimsOfParts (a :: b :: c :: t) = ⟨strTrim a, strTrim b, strTrim c⟩
    unfold dimsOfParts
    rw [if_pos (by simp)]
    rfl

/-- C2: for every string input, `parse_dimensions` behaves exactly as the
claim words it: the relevant substring is the trimmed text after a
case-insensitive `pd:` marker when the marker is present and the whole
string otherwise; the separator is the first of `×`, `x`, `X` contained in
that substring; with at least 3 parts the first three (trimmed) are
length/width/height, with exactly 2 parts height stays empty, and with no
separator all three stay empty. -/
theorem c2_parse_dimensions_matches_claim (s : String) :
    parse_dimensions (.vstr s) = parse_dimensions_claim s := by
  by_cases hs : s = ""
  · subst hs; rfl
  · simp only [parse_dimensions, if_neg hs]
    unfold parse_dimensions_str parse_dimensions_claim containsSubL
    cases hf : findSubIdx "pd:".data (lowerData s) with
    | none =>
      simp only [hf, Option.isSome, Bool.false_eq_true, if_false]
      by_cases h1 : containsC '×' s.data = true
      · simp only [h1, if_true]
        exact dimsOfParts_cases _
      · simp only [h1, Bool.not_eq_true, if_false]
        by_cases h2 : containsC 'x' s.data = true
        · simp only [h2, if_true]
          exact dimsOfParts_cases _
        · simp only [h2, Bool.not_eq_true, if_false]
          by_cases h3 : containsC 'X' s.data = true
          · simp only [h3, if_true]
            exact dimsOfParts_cases _
          · simp only [h3, Bool.not_eq_true, if_false]
            rfl
    | some i =>
      simp only [hf, Option.isSome, if_true]
      by_cases h1 : containsC '×' (strTrim ⟨s.data.drop (i + 3)⟩).data = true
      · simp only [h1, if_true]
        exact dimsOfParts_cases _
      · simp only [h1, Bool.not_eq_true, if_false]
        by_cases h2 : containsC 'x' (strTrim ⟨s.data.drop (i + 3)⟩).data = true
        · simp only [h2, if_true]
          exact dimsOfParts_cases _
        · simp only [h2, Bool.not_eq_true, if_false]
          by_cases h3 : containsC 'X' (strTrim ⟨s.data.drop (i + 3)⟩).data = true
          · simp only [h3, if_true]
            exact dimsOfParts_cases _
          · simp only [h3, Bool.not_eq_true, if_false]
            rfl

theorem firstTermMatch_eq (termsU : List String) (kU cur k : String) (v : PyVal) :
    firstTermMatch termsU kU cur k v
      = if termsU.any (fun t => containsSubL t.data kU.data) then [⟨cur, k, v, typeName v⟩]
        else [] := by
  induction termsU with
  | nil => rfl
  | cons t ts ih =>
    unfold firstTermMatch
    by_cases h : containsSubL t.data kU.data = true
    · simp [h]
    · simp [h, ih]

mutual

theorem search_eq_spec_aux (data : PyVal) (terms : List String) (path : String) :
    search_fields_recursive data terms path = search_spec data terms path := by
  cases data with
  | vdict d =>
    simp only [search_fields_recursive, search_spec]
    exact search_entries_eq_aux d terms path
  | vlist l =>
    simp only [search_fields_recursive, search_spec]
    exact search_items_eq_aux l terms path 0
  | vnone => rfl
  | vbool b => rfl
  | vint s => rfl
  | vfloat s => rfl
  | vstr s => rfl
termination_by structural data

theorem search_entries_eq_aux (d : PyDict) (terms : List String) (path : String) :
    search_entries d terms (terms.map strUpper) path = search_spec_entries d terms path := by
  cases d with
  | nil => rfl
  | cons k v rest =>
    simp only [search_entries, search_spec_entries]
    rw [firstTermMatch_eq, search_eq_spec_aux v terms (fieldPathOf path k),
      search_entries_eq_aux rest terms path]
termination_by structural d

theorem search_items_eq_aux (l : PyList) (terms : List String) (path : String) (idx : Nat) :
    search_list_items l terms path idx = search_spec_items l terms path idx := by
  cases l with
  | nil => rfl
  | cons item rest =>
    simp only [search_list_items, search_spec_items]
    rw [search_eq_spec_aux item terms (path ++ "[" ++ natStr idx ++ "]"),
      search_items_eq_aux rest terms path (idx + 1)]
termination_by structural l

end

/-- C6: the recursive key-name search behaves exactly as claimed: one
diagnostic match per mapping key whose upper-cased name contains at least
one upper-cased search term (at most one even if several terms match),
recursion into mapping and sequence values regardless of a match, and
results in depth-first order, a parent's match before its children's and
siblings in encounter order — the order `search_spec` encodes. -/
theorem c6_search_matches_claim (data : PyVal) (terms : List String) (path : String) :
    search_fields_recursive data terms path = search_spec data terms path :=
  search_eq_spec_aux data terms path

/-! ### Decimal rendering round-trip (towards C1) -/

theorem digit_char_facts (d : Nat) (h : d < 10) :
    (Char.ofNat (48 + d)).isDigit = true ∧ (Char.ofNat (48 + d)).toNat - 48 = d := by
  interval_cases d <;> exact ⟨rfl, rfl⟩

theorem isDigit_facts (c : Char) (h : c.isDigit = true) :
    isWSChar c = false ∧ c ≠ '.' ∧ c ≠ '[' ∧ c ≠ ']' ∧ c ≠ '-' ∧ c ≠ '+' := by
  refine ⟨?_, ?_, ?_, ?_, ?_, ?_⟩
  · by_contra hws
    simp only [Bool.not_eq_false, isWSChar, Bool.or_eq_true, decide_eq_true_eq] at hws
    rcases hws with ((h1 | h1) | h1) | h1 <;> subst h1 <;> exact absurd h (by decide)
  all_goals intro he
  all_goals subst he
  all_goals exact absurd h (by decide)

theorem natCharsAux_all_digit (fuel n : Nat) :
    ∀ c ∈ natCharsAux fuel n, c.isDigit = true := by
  induction fuel generalizing n with
  | zero => intro c hc; cases hc
  | succ f ih =>
    intro c hc
    cases n with
    | zero => cases hc
    | succ m =>
      rw [natCharsAux] at hc
      rcases List.mem_append.1 hc with h1 | h1
      · exact ih _ c h1
      · rcases List.mem_singleton.1 h1 with rfl
        exact (digit_char_facts ((m + 1) % 10) (Nat.mod_lt _ (by omega))).1

theorem natChars_all_digit (n : Nat) : ∀ c ∈ natChars n, c.isDigit = true := by
  intro c hc
  rw [natChars] at hc
  by_cases h0 : n = 0
  · simp only [h0, if_true] at hc
    rcases List.mem_singleton.1 hc with rfl
    rfl
  · simp only [h0, if_false] at hc
    exact natCharsAux_all_digit _ _ c hc

theorem natCharsAux_ne_nil (fuel n : Nat) (hn : 0 < n) (hf : n < fuel) :
    natCharsAux fuel n ≠ [] := by
  cases fuel with
  | zero => omega
  | succ f =>
    cases n with
    | zero => omega
    | succ m =>
      rw [natCharsAux]
      simp

theorem digitsValGo_append (l1 l2 : List Char) (acc : Nat) :
    digitsValGo (l1 ++ l2) acc
      = match digitsValGo l1 acc with
        | some m => digitsValGo l2 m
        | none => none := by
  induction l1 generalizing acc with
  | nil => rfl
  | cons c t ih =>
    by_cases hc : c.isDigit = true
    · simp only [List.cons_append, digitsValGo, hc, if_true]
      exact ih _
    · simp only [List.cons_append, digitsValGo, hc, if_false]
      simp at hc
      simp [hc]

theorem digitsValGo_natCharsAux (fuel : Nat) :
    ∀ n acc, n < fuel →
      digitsValGo (natCharsAux fuel n) acc
        = some (acc * 10 ^ (natCharsAux fuel n).length + n) := by
  induction fuel with
  | zero => intro n acc h; omega
  | succ f ih =>
    intro n acc h
    cases n with
    | zero => simp [natCharsAux, digitsValGo]
    | succ m =>
      have hdiv : (m + 1) / 10 < f := by
        have h1 : (m + 1) / 10 < m + 1 := Nat.div_lt_self (by omega) (by omega)
        omega
      rw [natCharsAux, digitsValGo_append, ih _ _ hdiv]
      have hd := digit_char_facts ((m + 1) % 10) (Nat.mod_lt _ (by omega))
      simp only [digitsValGo, hd.1, if_true, hd.2]
      rw [List.length_append, List.length_cons, List.length_nil]
      have : acc * 10 ^ ((natCharsAux f ((m + 1) / 10)).length + 1)
          = (acc * 10 ^ (natCharsAux f ((m + 1) / 10)).length) * 10 := by ring
      rw [this]
      congr 1
      omega

theorem digitsVal_natChars (n : Nat) : digitsVal (natChars n) = some n := by
  by_cases h0 : n = 0
  · subst h0; rfl
  · have hne : natChars n ≠ [] := by
      rw [natChars, if_neg h0]
      exact natCharsAux_ne_nil _ _ (by omega) (by omega)
    have hgo : digitsValGo (natChars n) 0 = some n := by
      rw [natChars, if_neg h0]
      rw [digitsValGo_natCharsAux (n + 1) n 0 (by omega)]
      simp
    obtain ⟨c, r, hnc⟩ : ∃ c r, natChars n = c :: r := by
      cases hcc : natChars n with
      | nil => exact absurd hcc hne
      | cons c r => exact ⟨c, r, rfl⟩
    rw [hnc]
    show digitsValGo (c :: r) 0 = some n
    rw [← hnc]
    exact hgo

theorem trimChars_of_no_ws (l : List Char) (h : ∀ c ∈ l, isWSChar c = false) :
    trimChars l = l := by
  have drop1 : ∀ (m : List Char), (∀ c ∈ m, isWSChar c = false) → m.dropWhile isWSChar = m := by
    intro m hm
    cases m with
    | nil => rfl
    | cons c t =>
      rw [List.dropWhile_cons_of_neg]
      simp [hm c (by simp)]
  rw [trimChars, drop1 l h, drop1 l.reverse (by intro c hc; exact h c (List.mem_reverse.1 hc)),
    List.reverse_reverse]

theorem pyInt_natChars (n : Nat) : pyInt (natChars n) = .ok (n : Int) := by
  have htrim : trimChars (natChars n) = natChars n :=
    trimChars_of_no_ws _ fun c hc => (isDigit_facts c (natChars_all_digit n c hc)).1
  have hne : natChars n ≠ [] := by
    rw [natChars]
    by_cases h0 : n = 0
    · simp [h0]
    · rw [if_neg h0]
      exact natCharsAux_ne_nil _ _ (by omega) (by omega)
  obtain ⟨c, r, hnc⟩ : ∃ c r, natChars n = c :: r := by
    cases hcc : natChars n with
    | nil => exact absurd hcc hne
    | cons c r => exact ⟨c, r, rfl⟩
  have hcd : c.isDigit = true := natChars_all_digit n c (by rw [hnc]; simp)
  have hfacts := isDigit_facts c hcd
  have htrim2 : trimChars (c :: r) = c :: r := by rw [← hnc]; exact htrim
  rw [hnc]
  simp only [pyInt, htrim2, if_neg hfacts.2.2.2.2.1, if_neg hfacts.2.2.2.2.2]
  rw [← hnc, digitsVal_natChars n]

/-! ### Path splitting (towards C1) -/

theorem idxOf_not_mem (c : Char) (l : List Char) (h : c ∉ l) : idxOf c l = none := by
  induction l with
  | nil => rfl
  | cons a t ih =>
    rw [idxOf, if_neg (by rintro rfl; exact h (by simp)), ih (fun hm => h (by simp [hm]))]
    rfl

theorem idxOf_append_first (c : Char) (l r : List Char) (h : c ∉ l) :
    idxOf c (l ++ c :: r) = some l.length := by
  induction l with
  | nil => simp [idxOf]
  | cons a t ih =>
    rw [List.cons_append, idxOf, if_neg (by rintro rfl; exact h (by simp)),
      ih (fun hm => h (by simp [hm]))]
    rfl

theorem splitOnChar_not_mem (c : Char) (l : List Char) (h : c ∉ l) :
    splitOnChar c l = [l] := by
  induction l with
  | nil => rfl
  | cons a t ih =>
    rw [splitOnChar, if_neg (by rintro rfl; exact h (by simp)),
      ih (fun hm => h (by simp [hm]))]

theorem splitOnChar_append (c : Char) (l rest : List Char) (h : c ∉ l) :
    splitOnChar c (l ++ c :: rest) = l :: splitOnChar c rest := by
  induction l with
  | nil => simp [splitOnChar]
  | cons a t ih =>
    rw [List.cons_append, splitOnChar, if_neg (by rintro rfl; exact h (by simp)),
      ih (fun hm => h (by simp [hm]))]

theorem joinDots_split (ls : List (List Char)) (hne : ls ≠ [])
    (h : ∀ l ∈ ls, '.' ∉ l) : splitOnChar '.' (joinDots ls) = ls := by
  induction ls with
  | nil => exact absurd rfl hne
  | cons x xs ih =>
    cases xs with
    | nil => exact splitOnChar_not_mem '.' x (h x (by simp))
    | cons y ys =>
      have hj : joinDots (x :: y :: ys) = x ++ '.' :: joinDots (y :: ys) := rfl
      rw [hj, splitOnChar_append '.' x _ (h x (by simp)),
        ih (List.cons_ne_nil y ys) (fun l hl => h l (by simp [hl]))]

theorem goodName_spec (n : String) (h : goodName n = true) :
    '.' ∉ n.data ∧ '[' ∉ n.data ∧ ']' ∉ n.data := by
  simp only [goodName, List.all_eq_true] at h
  refine ⟨?_, ?_, ?_⟩ <;> intro hm <;> have h2 := h _ hm <;> simp at h2

theorem natChars_no_meta (i : Nat) :
    '.' ∉ natChars i ∧ '[' ∉ natChars i ∧ ']' ∉ natChars i := by
  refine ⟨?_, ?_, ?_⟩ <;> intro hm
  · exact absurd rfl (isDigit_facts _ (natChars_all_digit i _ hm)).2.1
  · exact absurd rfl (isDigit_facts _ (natChars_all_digit i _ hm)).2.2.1
  · exact absurd rfl (isDigit_facts _ (natChars_all_digit i _ hm)).2.2.2.1

theorem renderSeg_no_dot (sg : Segment) (h : goodSeg sg = true) : '.' ∉ renderSeg sg := by
  cases sg with
  | bare n => exact (goodName_spec n h).1
  | idx n i =>
    intro hm
    rw [renderSeg] at hm
    rcases List.mem_append.1 hm with h1 | h1
    · exact (goodName_spec n h).1 h1
    · rcases List.mem_cons.1 h1 with h2 | h2
      · exact absurd h2 (by decide)
      · rcases List.mem_append.1 h2 with h3 | h3
        · exact (natChars_no_meta i).1 h3
        · rcases List.mem_singleton.1 h3 with h4
          exact absurd h4 (by decide)

theorem extract_parts_bare_step (cur : PyVal) (part : List Char) (rest : List (List Char))
    (hc : containsC '[' part = false) :
    extract_parts_try cur (part :: rest)
      = (match cur with
         | .vdict d =>
           (match d.lookup (⟨part⟩ : String) with
            | some c1 => extract_parts_try c1 rest
            | none => .ok .vnone)
         | _ => .ok .vnone) := by
  rw [extract_parts_try.eq_def]
  simp only [hc, Bool.false_and, Bool.false_eq_true, if_false]

theorem extract_parts_idx_step (cur : PyVal) (part : List Char) (rest : List (List Char))
    (hcl : containsC '[' part = true) (hcr : containsC ']' part = true) :
    extract_parts_try cur (part :: rest)
      = (match pyInt ((part.drop ((idxOf '[' part).getD 0 + 1)).take
            ((idxOf ']' part).getD 0 - ((idxOf '[' part).getD 0 + 1))) with
         | .error e => .error e
         | .ok index =>
           match cur with
           | .vdict d =>
             (match d.lookup (⟨part.take ((idxOf '[' part).getD 0)⟩ : String) with
              | some c1 =>
                (match c1 with
                 | .vlist l =>
                   if 0 ≤ index && index < (PyList.length l : Int) then
                     extract_parts_try (l.getIdx index.toNat) rest
                   else .ok .vnone
                 | _ => .ok .vnone)
              | none => .ok .vnone)
           | _ => .ok .vnone) := by
  rw [extract_parts_try.eq_def]
  simp only [hcl, hcr, Bool.and_self, if_true]

theorem extract_renderSegs (segs : List Segment) (h : ∀ s ∈ segs, goodSeg s = true) :
    ∀ cur : PyVal, extract_parts_try cur (segs.map renderSeg) = .ok (pathDescend cur segs) := by
  induction segs with
  | nil => intro cur; rfl
  | cons sg rest ih =>
    intro cur
    have hs : goodSeg sg = true := h sg (by simp)
    have hrest : ∀ s ∈ rest, goodSeg s = true := fun s hs2 => h s (by simp [hs2])
    cases sg with
    | bare n =>
      obtain ⟨hdot, hlb, hrb⟩ := goodName_spec n hs
      have hc : containsC '[' n.data = false := by
        simp [containsC, idxOf_not_mem '[' n.data hlb]
      rw [List.map_cons, show renderSeg (.bare n) = n.data from rfl,
        extract_parts_bare_step cur n.data _ hc]
      cases cur with
      | vdict d =>
        rw [show ((⟨n.data⟩ : String)) = n from rfl]
        show (match d.lookup n with
              | some c1 => extract_parts_try c1 (List.map renderSeg rest)
              | none => Except.ok PyVal.vnone)
            = Except.ok (pathDescend (PyVal.vdict d) (Segment.bare n :: rest))
        rw [show pathDescend (PyVal.vdict d) (Segment.bare n :: rest)
            = (match d.lookup n with
                | some v1 => pathDescend v1 rest
                | none => PyVal.vnone) from rfl]
        cases hl : d.lookup n with
        | some c1 => exact ih hrest c1
        | none => rfl
      | vnone => rfl
      | vbool b => rfl
      | vint s => rfl
      | vfloat s => rfl
      | vstr s => rfl
      | vlist l => rfl
    | idx n i =>
      obtain ⟨hdot, hlb, hrb⟩ := goodName_spec n hs
      have hnr : ']' ∉ n.data ++ '[' :: natChars i := by
        intro hm
        rcases List.mem_append.1 hm with h1 | h1
        · exact hrb h1
        · rcases List.mem_cons.1 h1 with h2 | h2
          · exact absurd h2 (by decide)
          · exact (natChars_no_meta i).2.2 h2
      have h1 : idxOf '[' (renderSeg (.idx n i)) = some n.data.length := by
        rw [renderSeg]
        exact idxOf_append_first '[' n.data _ hlb
      have h2 : idxOf ']' (renderSeg (.idx n i))
          = some (n.data.length + 1 + (natChars i).length) := by
        rw [show renderSeg (.idx n i) = (n.data ++ '[' :: natChars i) ++ ']' :: [] by
          rw [renderSeg]; simp]
        rw [idxOf_append_first ']' (n.data ++ '[' :: natChars i) [] hnr]
        congr 1
        simp
        omega
      have hkey : (renderSeg (.idx n i)).take n.data.length = n.data := by
        rw [renderSeg, show n.data ++ '[' :: (natChars i ++ [']'])
            = n.data ++ ('[' :: (natChars i ++ [']'])) from rfl]
        exact List.take_left n.data _
      have hdrop : (renderSeg (.idx n i)).drop (n.data.length + 1) = natChars i ++ [']'] := by
        rw [show renderSeg (.idx n i) = (n.data ++ ['[']) ++ (natChars i ++ [']']) by
          rw [renderSeg]; simp]
        rw [show n.data.length + 1 = (n.data ++ ['[']).length by simp]
        exact List.drop_left _ _
      have hcl : containsC '[' (renderSeg (.idx n i)) = true := by simp [containsC, h1]
      have hcr : containsC ']' (renderSeg (.idx n i)) = true := by simp [containsC, h2]
      rw [List.map_cons, extract_parts_idx_step cur _ _ hcl hcr, h1, h2,
        Option.getD_some, Option.getD_some, hdrop,
        show (n.data.length + 1 + (natChars i).length) - (n.data.length + 1)
          = (natChars i).length by omega,
        List.take_left _ _, pyInt_natChars i, hkey]
      cases cur with
      | vdict d =>
        rw [show ((⟨n.data⟩ : String)) = n from rfl]
        show (match d.lookup n with
              | some c1 =>
                (match c1 with
                 | PyVal.vlist l =>
                   if 0 ≤ (i : Int) && (i : Int) < (PyList.length l : Int) then
                     extract_parts_try (l.getIdx ((i : Int)).toNat) (List.map renderSeg rest)
                   else Except.ok PyVal.vnone
                 | _ => Except.ok PyVal.vnone)
              | none => Except.ok PyVal.vnone)
            = Except.ok (pathDescend (PyVal.vdict d) (Segment.idx n i :: rest))
        rw [show pathDescend (PyVal.vdict d) (Segment.idx n i :: rest)
            = (match d.lookup n with
                | some (.vlist l) =>
                  if i < l.length then pathDescend (l.getIdx i) rest else .vnone
                | some _ => .vnone
                | none => .vnone) from rfl]
        cases hl : d.lookup n with
        | some c1 =>
          cases c1 with
          | vlist l =>
            show (if 0 ≤ (i : Int) && (i : Int) < (PyList.length l : Int) then
                    extract_parts_try (l.getIdx ((i : Int)).toNat) (List.map renderSeg rest)
                  else Except.ok PyVal.vnone)
                = Except.ok (if i < l.length then pathDescend (l.getIdx i) rest else PyVal.vnone)
            by_cases hlt : i < l.length
            · rw [if_pos (by
                  simp only [Bool.and_eq_true, decide_eq_true_eq]
                  exact ⟨Int.natCast_nonneg i, by exact_mod_cast hlt⟩), if_pos hlt]
              rw [show ((i : Int)).toNat = i from Int.toNat_ofNat i]
              exact ih hrest (l.getIdx i)
            · rw [if_neg (by
                  simp only [Bool.and_eq_true, decide_eq_true_eq]
                  intro hcon
                  exact hlt (by exact_mod_cast hcon.2)), if_neg hlt]
          | vnone => rfl
          | vbool b => rfl
          | vint s => rfl
          | vfloat s => rfl
          | vstr s => rfl
          | vdict d2 => rfl
        | none => rfl
      | vnone => rfl
      | vbool b => rfl
      | vint s => rfl
      | vfloat s => rfl
      | vstr s => rfl
      | vlist l => rfl

/-- C1: for every value and every well-formed path expression (a nonempty
dot-separated list of segments whose names avoid the `.`/`[`/`]`
metacharacters, each a bare key or a key with one trailing bracketed
index), the extractor returns without raising exactly the value reached by
descending one level per segment, and the absence default (`None`) as soon
as a segment names a missing key, indexes a non-sequence, or carries an
index outside `[0, length)` — the semantics `pathDescend` encodes. -/
theorem c1_extract_follows_path (V : PyVal) (segs : List Segment) (hne : segs ≠ [])
    (h : ∀ s ∈ segs, goodSeg s = true) :
    extract_try V (renderPath segs) = .ok (pathDescend V segs) ∧
    extract_field_value V (renderPath segs) = pathDescend V segs := by
  have hmapne : segs.map renderSeg ≠ [] := by
    cases segs with
    | nil => exact absurd rfl hne
    | cons a t => simp
  have hnodot : ∀ l ∈ segs.map renderSeg, '.' ∉ l := by
    intro l hl
    rcases List.mem_map.1 hl with ⟨sg, hsg, rfl⟩
    exact renderSeg_no_dot sg (h sg hsg)
  have et : extract_try V (renderPath segs) = .ok (pathDescend V segs) := by
    show extract_parts_try V (splitOnChar '.' (joinDots (segs.map renderSeg)))
        = .ok (pathDescend V segs)
    rw [joinDots_split _ hmapne hnodot]
    exact extract_renderSegs segs h V
  refine ⟨et, ?_⟩
  show (match extract_try V (renderPath segs) with
        | .ok v => v
        | .error _ => PyVal.vnone) = pathDescend V segs
  rw [et]

theorem c1_extract_follows_path_witness :
    extract_try (.vdict sampleInput) (renderPath [.bare "dimensions", .idx "dims" 3, .bare "t"])
        = .ok (.vstr "DIM") ∧
    extract_field_value (.vdict sampleInput)
        (renderPath [.bare "dimensions", .idx "dims" 3, .bare "t"])
      = .vstr "DIM" := by
  have h := c1_extract_follows_path (.vdict sampleInput)
    [.bare "dimensions", .idx "dims" 3, .bare "t"] (by simp) (by decide)
  rw [show pathDescend (.vdict sampleInput) [.bare "dimensions", .idx "dims" 3, .bare "t"]
      = .vstr "DIM" from rfl] at h
  exact h
